import Mathlib

/-!
# Spore ModAPI: address resolution, foreign calls and the DialogDrawable shim

A shallow embedding of

* `src/SourceCode/UTFWin/UTFWinAllocator.cpp` (the allocation forwarders of `UTFWinObject`),
* `src/Spore/UTFWin/DialogDrawable.h` (the `DialogDrawable` shim class, its enums, its
  address list and its constructor),

together with the version-keyed address resolver and the foreign call invoker that these two
files use through the `GetAddress` and `STATIC_CALL` forms.
-/

namespace SporeModAPI

/-! ## Version-keyed address resolver -/

/-- Discrete identifier of one shipped build of the host binary: its position in the fixed,
globally agreed version order. -/
abbrev HostVersionId := Nat

/-- An untyped machine address inside the live host image. -/
abbrev RawAddress := Nat

/-- Ordered sequence of `(HostVersionId, RawAddress)` pairs for one logical function. -/
abbrev VersionAddressTable := List (HostVersionId × RawAddress)

/-- The only failure of the resolver. -/
inductive ResolveError where
  | configurationError
deriving DecidableEq, Repr

/-- Modelled from the spec: the resolver behind the `GetAddress` form, whose definition is not
part of the sources at hand. Section 4.1: `resolve` performs a direct lookup by the active
HostVersionId; if no entry matches the active version the call fails (configuration error)
and no other version's address is substituted. -/
def resolve (active : HostVersionId) : VersionAddressTable → Except ResolveError RawAddress
  | [] => .error .configurationError
  | (v, a) :: rest => if v = active then .ok a else resolve active rest

/-- Positional numbering of a sequence of raw addresses, starting at version index `i`. -/
def GetAddressFrom (i : HostVersionId) : List RawAddress → VersionAddressTable
  | [] => []
  | a :: rest => (i, a) :: GetAddressFrom (i + 1) rest

/-- Modelled from the spec: the table written `GetAddress(a0, a1, a2)` in the sources; the
form itself is defined outside the sources at hand. Section 6: a fixed-order sequence of raw
addresses, one per supported host build, consumed positionally by HostVersionId index. -/
def GetAddress (addresses : List RawAddress) : VersionAddressTable :=
  GetAddressFrom 0 addresses

/-- The version ids that have a position in every `GetAddress(...)` of the sources: each one
is written with three addresses. -/
def supportedVersions : List HostVersionId := [0, 1, 2]

/-- The version ids a table has an entry for. -/
def tableVersions (table : VersionAddressTable) : List HostVersionId :=
  table.map Prod.fst

/-! ## The address tables written in the sources -/

/-- The methods named in `InternalAddressList(DialogDrawable)` and in the class bodies. -/
inductive Method where
  | AddRef | Release | Cast
  | SetSerializer | GetProxyID
  | Paint | IsColliding | GetDimensions | UseCollision
  | ToDrawable | SetImage | GetBackgroundColor | SetBackgroundColor
  | GetBackgroundTiling | SetBackgroundTiling
deriving DecidableEq, Repr

namespace DialogDrawable

/-- The `DefineAddress` lines of `InternalAddressList(DialogDrawable)`, in source order:
DialogDrawable.h lines 148 to 161. -/
def InternalAddressList : List (Method × List RawAddress) :=
  [ (.SetSerializer, [0x96D960, 0x96D560, 0x96D560]),
    (.GetProxyID, [0x96BD30, 0x96B940, 0x96B940]),
    (.Paint, [0x96DA20, 0x96D620, 0x96D620]),
    (.IsColliding, [0x689880, 0x5ACA30, 0x5ACA30]),
    (.GetDimensions, [0x96BD70, 0x96B980, 0x96B980]),
    (.UseCollision, [0x951320, 0x950E00, 0x950E00]),
    (.ToDrawable, [0x97E760, 0x96FEB0, 0x96FEB0]),
    (.SetImage, [0x96BE50, 0x96BA60, 0x96BA60]),
    (.GetBackgroundColor, [0x96BE90, 0x96BAA0, 0x96BAA0]),
    (.SetBackgroundColor, [0x980670, 0xFCCD90, 0xFCCD90]),
    (.GetBackgroundTiling, [0x96BEB0, 0x96BAC0, 0x96BAC0]),
    (.SetBackgroundTiling, [0x96BEA0, 0x96BAB0, 0x96BAB0]) ]

end DialogDrawable

namespace UTFWinObject

/-- The addresses in `operator new(size_t, size_t, const char*, ICoreAllocator*)`:
UTFWinAllocator.cpp line 37. -/
def newAddresses : List RawAddress := [0x951760, 0x951230, 0x951230]

/-- The addresses in `operator delete(void*)`: UTFWinAllocator.cpp line 48. -/
def deleteAddresses : List RawAddress := [0x9517C0, 0x951290, 0x951290]

end UTFWinObject

/-- Every address sequence written in the two source files: the twelve of `DialogDrawable`
followed by the two of `UTFWinObject`. -/
def sourceAddressLists : List (List RawAddress) :=
  DialogDrawable.InternalAddressList.map Prod.snd
    ++ [UTFWinObject.newAddresses, UTFWinObject.deleteAddresses]

/-! ## Foreign call invoker -/

/-- The C types that occur in the declared signatures of the forwarded calls. -/
inductive CType where
  | void
  | voidPtr
  | size_t
  | constCharPtr
  | ICoreAllocatorPtr
deriving DecidableEq, Repr

/-- Declared return type and parameter types of a foreign call: the second argument and the
first `PARAMS(...)` of `STATIC_CALL`. -/
structure CallSignature where
  returnType : CType
  parameters : List CType
deriving DecidableEq, Repr

/-- A concrete argument value handed to host code. -/
inductive Arg where
  | size (n : Nat)
  | cstr (s : String)
  | ptr (p : Nat)
deriving DecidableEq, Repr

/-- One foreign call as seen at the boundary with the host: where control was transferred,
under which declared signature, with which arguments, and the raw value that came back. -/
structure CallRecord where
  address : RawAddress
  signature : CallSignature
  args : List Arg
  result : Nat
deriving DecidableEq, Repr

/-- The host image (or a test double of it): the code found at each raw address, acting on
host-owned state of type `σ` and yielding a raw return value. -/
structure Host (σ : Type) where
  code : RawAddress → List Arg → σ → Nat × σ

/-- The host-owned state and the foreign calls performed so far, oldest first. -/
structure World (σ : Type) where
  host : σ
  trace : List CallRecord

/-- Modelled from the spec: the invoker of section 4.2 for a free (static) call; control is
transferred to `address` with the argument list, and the raw return value is handed back. The
call is appended to the trace. -/
def invoke {σ : Type} (H : Host σ) (address : RawAddress) (signature : CallSignature)
    (args : List Arg) (w : World σ) : Nat × World σ :=
  let r := H.code address args w.host
  (r.1, ⟨r.2, w.trace ++ [⟨address, signature, args, r.1⟩]⟩)

/-- Modelled from the spec: the `STATIC_CALL(address, returnType, PARAMS(..), PARAMS(..))`
form, defined outside the sources at hand. Sections 2 and 7: the method body asks the
resolver for the address, then asks the invoker to perform the call; a missing table entry
fails before any foreign call is attempted. -/
def STATIC_CALL {σ : Type} (H : Host σ) (active : HostVersionId) (table : VersionAddressTable)
    (signature : CallSignature) (args : List Arg) (w : World σ) :
    Except ResolveError Nat × World σ :=
  match resolve active table with
  | .error e => (.error e, w)
  | .ok address =>
    let r := invoke H address signature args w
    (.ok r.1, r.2)

/-! ## UTFWinAllocator.cpp -/

namespace UTFWin

/-- Declared signature of `GetAllocator`: `ICoreAllocator*` and no parameters. -/
def GetAllocatorSignature : CallSignature := ⟨.ICoreAllocatorPtr, []⟩

/-- The line `auto_STATIC_METHOD_(UTFWin, ICoreAllocator*, GetAllocator)`: a static call
with no arguments through the address table of `GetAllocator`. That table is declared outside the
sources at hand and is taken as the parameter `getAllocatorTable`. -/
def GetAllocator {σ : Type} (H : Host σ) (active : HostVersionId)
    (getAllocatorTable : VersionAddressTable) (w : World σ) :
    Except ResolveError Nat × World σ :=
  STATIC_CALL H active getAllocatorTable GetAllocatorSignature [] w

end UTFWin

namespace UTFWinObject

/-- Declared signature in the four-argument `operator new`. -/
def newSignature : CallSignature :=
  ⟨.voidPtr, [.size_t, .size_t, .constCharPtr, .ICoreAllocatorPtr]⟩

/-- Declared signature in `operator delete`. -/
def deleteSignature : CallSignature := ⟨.void, [.voidPtr]⟩

/-- The argument list `PARAMS(n, align, pName, pAllocator)` of the four-argument
`operator new`. -/
def newArgs (n align : Nat) (pName : String) (pAllocator : Nat) : List Arg :=
  [.size n, .size align, .cstr pName, .ptr pAllocator]

/-- The argument list `PARAMS(p)` of `operator delete`. -/
def deleteArgs (p : Nat) : List Arg := [.ptr p]

/-- The forwarder `void* UTFWinObject::operator new(size_t n, size_t align,
const char* pName, ICoreAllocator* pAllocator)`. -/
def operator_new4 {σ : Type} (H : Host σ) (active : HostVersionId)
    (n align : Nat) (pName : String) (pAllocator : Nat) (w : World σ) :
    Except ResolveError Nat × World σ :=
  STATIC_CALL H active (GetAddress newAddresses) newSignature
    (newArgs n align pName pAllocator) w

/-- The forwarder `void* UTFWinObject::operator new(size_t n)`: the argument
`UTFWin::GetAllocator()` is evaluated, then the four-argument form is called with
`n, 4, ""` and that value. -/
def operator_new1 {σ : Type} (H : Host σ) (active : HostVersionId)
    (getAllocatorTable : VersionAddressTable) (n : Nat) (w : World σ) :
    Except ResolveError Nat × World σ :=
  match UTFWin.GetAllocator H active getAllocatorTable w with
  | (.error e, w1) => (.error e, w1)
  | (.ok pAllocator, w1) => operator_new4 H active n 4 "" pAllocator w1

/-- The forwarder `void UTFWinObject::operator delete(void* p)`. -/
def operator_delete {σ : Type} (H : Host σ) (active : HostVersionId) (p : Nat)
    (w : World σ) : Except ResolveError Unit × World σ :=
  match STATIC_CALL H active (GetAddress deleteAddresses) deleteSignature (deleteArgs p) w with
  | (.error e, w1) => (.error e, w1)
  | (.ok _, w1) => (.ok (), w1)

/-- Construct then immediately release: `operator new(n)` followed by `operator delete` on
the pointer it returned. -/
def newThenDelete {σ : Type} (H : Host σ) (active : HostVersionId)
    (getAllocatorTable : VersionAddressTable) (n : Nat) (w : World σ) :
    Except ResolveError Unit × World σ :=
  match operator_new1 H active getAllocatorTable n w with
  | (.error e, w1) => (.error e, w1)
  | (.ok p, w1) => operator_delete H active p w1

/-- A recorded call is a call to the host allocation entry point: it went to the address the
`operator new` table resolves to, under the allocation signature. -/
def isAllocationCall (active : HostVersionId) (c : CallRecord) : Bool :=
  match resolve active (GetAddress newAddresses) with
  | .ok address => decide (c.address = address) && decide (c.signature = newSignature)
  | .error _ => false

/-- A recorded call is a call to the host deallocation entry point. -/
def isDeallocationCall (active : HostVersionId) (c : CallRecord) : Bool :=
  match resolve active (GetAddress deleteAddresses) with
  | .ok address => decide (c.address = address) && decide (c.signature = deleteSignature)
  | .error _ => false

/-- The debug name of a recorded allocation request: its third argument. -/
def debugName (c : CallRecord) : Option String :=
  match c.args with
  | [_, _, .cstr s, _] => some s
  | _ => none

end UTFWinObject

/-! ## DialogDrawable.h -/

/-- The scoped enumeration `enum class BackgroundTiling : uint32_t`. -/
inductive BackgroundTiling where
  | Stretch
  | Tile
  | CenterStretch
  | CenterTile
deriving DecidableEq, Repr

/-- The enumerator values written in the source. -/
def BackgroundTiling.value : BackgroundTiling → Nat
  | .Stretch => 0
  | .Tile => 1
  | .CenterStretch => 2
  | .CenterTile => 3

namespace IDialogDrawable

/-- The unnamed enum of `IDialogDrawable`: the `kImage...` constants. -/
inductive ImageIndex where
  | kImageBackground
  | kImageTitleBar
  | kImageBorderLeft
  | kImageBorderRight
  | kImageBorderTop
  | kImageBorderBottom
  | kImageBorderTopLeft
  | kImageBorderTopRight
  | kImageBorderBottomLeft
  | kImageBorderBottomRight
deriving DecidableEq, Repr

/-- The enumerator values written in the source. -/
def ImageIndex.value : ImageIndex → Nat
  | .kImageBackground => 0
  | .kImageTitleBar => 1
  | .kImageBorderLeft => 2
  | .kImageBorderRight => 3
  | .kImageBorderTop => 4
  | .kImageBorderBottom => 5
  | .kImageBorderTopLeft => 6
  | .kImageBorderTopRight => 7
  | .kImageBorderBottomLeft => 8
  | .kImageBorderBottomRight => 9

/-- The ten constants in declaration order. -/
def kImage : List ImageIndex :=
  [ .kImageBackground, .kImageTitleBar, .kImageBorderLeft, .kImageBorderRight,
    .kImageBorderTop, .kImageBorderBottom, .kImageBorderTopLeft, .kImageBorderTopRight,
    .kImageBorderBottomLeft, .kImageBorderBottomRight ]

/-- The virtual methods `IDialogDrawable` declares, in declaration order, each with the slot
offset annotated in the comment in front of it (`ToDrawable` carries no annotation). -/
def virtualMethods : List (Method × Option Nat) :=
  [ (.ToDrawable, none),
    (.SetImage, some 0x14),
    (.GetBackgroundColor, some 0x18),
    (.SetBackgroundColor, some 0x1C),
    (.GetBackgroundTiling, some 0x20),
    (.SetBackgroundTiling, some 0x24) ]

end IDialogDrawable

/-- Consecutive dispatch slots: the methods in order, the first at byte offset `first`, each
slot `slotSize` bytes wide. -/
def slotOffsets (slotSize : Nat) (first : Nat) : List Method → List (Method × Nat)
  | [] => []
  | m :: rest => (m, first) :: slotOffsets slotSize (first + slotSize) rest

/-- The types of the data members of `DialogDrawable`. -/
inductive FieldType where
  | Color
  | BackgroundTiling
  | intrusive_ptr
  | array (elem : FieldType) (count : Nat)
deriving DecidableEq, Repr

/-- What the translation unit needs from outside the sources at hand to lay the class out:
the size of a pointer, the size of `Color`, and the size of the base-class part of
`DialogDrawable` (`IDrawable`, `DefaultLayoutElement`, `IDialogDrawable`). -/
structure Target where
  pointerSize : Nat
  colorSize : Nat
  baseSize : Nat
deriving DecidableEq, Repr

/-- The 32-bit host: 4-byte pointers, 4-byte `Color`, base-class part in bytes 0x00..0x0F. -/
def host32 : Target := ⟨4, 4, 0x10⟩

/-- Storage size of a member: `BackgroundTiling` has underlying type `uint32_t`, an
`intrusive_ptr` holds one pointer, an array is its elements back to back. -/
def FieldType.size (t : Target) : FieldType → Nat
  | .Color => t.colorSize
  | .BackgroundTiling => 4
  | .intrusive_ptr => t.pointerSize
  | .array elem count => count * elem.size t

/-- Natural alignment of a member: a scalar is aligned to its size, an array to its element. -/
def FieldType.align (t : Target) : FieldType → Nat
  | .Color => t.colorSize
  | .BackgroundTiling => 4
  | .intrusive_ptr => t.pointerSize
  | .array elem _ => elem.align t

/-- Round `x` up to the next multiple of `a`. -/
def roundUp (x a : Nat) : Nat := (x + a - 1) / a * a

/-- Offsets the compiler gives to members placed in declaration order from byte `cur` on,
each at the next offset that satisfies its alignment; also the end of the last member. -/
def layoutFrom (t : Target) (cur : Nat) : List FieldType → List Nat × Nat
  | [] => ([], cur)
  | f :: rest =>
    let off := roundUp cur (f.align t)
    let r := layoutFrom t (off + f.size t) rest
    (off :: r.1, r.2)

/-- The names of the data members of `DialogDrawable`. -/
inductive FieldName where
  | mBackgroundFillColor
  | mBackgroundTiling
  | mpImages
deriving DecidableEq, Repr

/-- A data member declaration: name, type and the offset annotated in front of it. -/
structure FieldDecl where
  name : FieldName
  type : FieldType
  annotatedOffset : Nat
deriving DecidableEq, Repr

/-- The object state of a `DialogDrawable`: the colour as its 32-bit value, the tiling mode as
its underlying `uint32_t` value, and the image pointers (0 is the null pointer). -/
structure DialogDrawable where
  mBackgroundFillColor : Nat
  mBackgroundTiling : Nat
  mpImages : List Nat
deriving DecidableEq, Repr

namespace DialogDrawable

/-- The extent of `intrusive_ptr<Image> mpImages[10]`. -/
def mpImagesExtent : Nat := 10

/-- The protected data members, DialogDrawable.h lines 135 to 137. -/
def fields : List FieldDecl :=
  [ ⟨.mBackgroundFillColor, .Color, 0x10⟩,
    ⟨.mBackgroundTiling, .BackgroundTiling, 0x14⟩,
    ⟨.mpImages, .array .intrusive_ptr mpImagesExtent, 0x18⟩ ]

/-- The size in `static_assert(sizeof(DialogDrawable) == 0x40, ...)`. -/
def assertedSize : Nat := 0x40

/-- The layout of the data members after the base-class part. -/
def layout (t : Target) : List Nat × Nat :=
  layoutFrom t t.baseSize (fields.map FieldDecl.type)

/-- The value of `sizeof(DialogDrawable)`: the end of the last member, rounded up to the
alignment of the class, which holds dispatch-table pointers. -/
def sizeof (t : Target) : Nat :=
  roundUp (layout t).2 t.pointerSize

/-- The virtual methods `DialogDrawable` declares with `override`, lines 114 to 131. -/
def overrides : List Method :=
  [ .AddRef, .Release, .Cast,
    .SetSerializer, .GetProxyID,
    .Paint, .IsColliding, .GetDimensions, .UseCollision,
    .ToDrawable, .SetImage, .GetBackgroundColor, .SetBackgroundColor,
    .GetBackgroundTiling, .SetBackgroundTiling ]

/-- The inline constructor `DialogDrawable::DialogDrawable()`: the colour is initialised with
0xFF7F7F7F, `mBackgroundTiling()` and `mpImages{}` are value-initialised, that is zero and
ten null pointers. -/
def construct : DialogDrawable :=
  ⟨0xFF7F7F7F, 0, List.replicate mpImagesExtent 0⟩

end DialogDrawable

/-- The calls a run appended to the trace: what follows the first `before` records. -/
def producedCalls {σ : Type} (before : World σ) (after : World σ) : List CallRecord :=
  after.trace.drop before.trace.length

/-- Invoke a forwarder `count` times in a row, collecting the results in order. -/
def invokeTimes {σ α : Type} (f : World σ → Except ResolveError α × World σ) :
    Nat → World σ → List (Except ResolveError α) × World σ
  | 0, w => ([], w)
  | k + 1, w =>
    let r := f w
    let rest := invokeTimes f k r.2
    (r.1 :: rest.1, rest.2)

/-- Specification side of the pass-through property: the host function at `address` called
directly `count` times with the same arguments, on the bare host state. -/
def callHostDirectly {σ : Type} (H : Host σ) (address : RawAddress) (args : List Arg) :
    Nat → σ → List Nat × σ
  | 0, s => ([], s)
  | k + 1, s =>
    let r := H.code address args s
    let rest := callHostDirectly H address args k r.2
    (r.1 :: rest.1, rest.2)

/-- A test double of the host: a bump allocator whose state is the next free address. Every
entry point returns the current value and advances it by 0x40. -/
def bumpHost : Host Nat := ⟨fun _ _ s => (s, s + 0x40)⟩

/-! ## Resolver lemmas -/

theorem resolve_ok_mem (active : HostVersionId) (table : VersionAddressTable) (a : RawAddress)
    (h : resolve active table = .ok a) : (active, a) ∈ table := by
  induction table with
  | nil => simp [resolve] at h
  | cons e rest ih =>
    obtain ⟨v, b⟩ := e
    by_cases hv : v = active
    · simp [resolve, hv] at h
      simp [hv, h]
    · simp [resolve, hv] at h
      exact List.mem_cons_of_mem _ (ih h)

theorem resolve_of_listed (active : HostVersionId) (table : VersionAddressTable)
    (h : active ∈ tableVersions table) : ∃ a, resolve active table = .ok a := by
  induction table with
  | nil => simp [tableVersions] at h
  | cons e rest ih =>
    obtain ⟨v, b⟩ := e
    by_cases hv : v = active
    · exact ⟨b, by simp [resolve, hv]⟩
    · have h2 : active ∈ tableVersions rest := by
        simp only [tableVersions, List.map_cons, List.mem_cons] at h
        rcases h with h | h
        · exact absurd h.symm hv
        · exact h
      obtain ⟨a, ha⟩ := ih h2
      exact ⟨a, by simp [resolve, hv, ha]⟩

theorem resolve_not_listed (active : HostVersionId) (table : VersionAddressTable)
    (h : active ∉ tableVersions table) : resolve active table = .error .configurationError := by
  induction table with
  | nil => rfl
  | cons e rest ih =>
    obtain ⟨v, b⟩ := e
    simp only [tableVersions, List.map_cons, List.mem_cons, not_or] at h
    have hv : ¬ v = active := fun hEq => h.1 hEq.symm
    simp only [resolve, hv, if_false]
    exact ih h.2

theorem entry_unique_of_nodup (table : VersionAddressTable)
    (hone : (tableVersions table).Nodup) (v : HostVersionId) (a b : RawAddress)
    (ha : (v, a) ∈ table) (hb : (v, b) ∈ table) : b = a := by
  induction table with
  | nil => simp at ha
  | cons e rest ih =>
    simp only [tableVersions, List.map_cons, List.nodup_cons] at hone
    have key : ∀ c, (v, c) ∈ rest → v ∈ List.map Prod.fst rest := fun c hc =>
      List.mem_map.mpr ⟨(v, c), hc, rfl⟩
    rcases List.mem_cons.mp ha with ha | ha <;> rcases List.mem_cons.mp hb with hb | hb
    · rw [← ha] at hb
      exact (Prod.mk.inj hb).2
    · exact absurd (key b hb) (by rw [← ha] at hone; exact hone.1)
    · exact absurd (key a ha) (by rw [← hb] at hone; exact hone.1)
    · exact ih hone.2 ha hb

theorem resolve_GetAddressFrom (addresses : List RawAddress) (i k : Nat) (a : RawAddress)
    (h : addresses[k]? = some a) : resolve (i + k) (GetAddressFrom i addresses) = .ok a := by
  induction addresses generalizing i k with
  | nil => simp at h
  | cons b rest ih =>
    cases k with
    | zero =>
      simp at h
      simp [GetAddressFrom, resolve, h]
    | succ k =>
      simp at h
      have hne : ¬ i = i + (k + 1) := by omega
      simp only [GetAddressFrom, resolve, hne, if_false]
      have := ih (i + 1) k h
      rwa [show i + 1 + k = i + (k + 1) by omega] at this

theorem resolve_GetAddress (addresses : List RawAddress) (k : Nat) (a : RawAddress)
    (h : addresses[k]? = some a) : resolve k (GetAddress addresses) = .ok a := by
  have := resolve_GetAddressFrom addresses 0 k a h
  simpa [GetAddress] using this

theorem tableVersions_GetAddressFrom (addresses : List RawAddress) (i : Nat) :
    tableVersions (GetAddressFrom i addresses) = List.range' i addresses.length := by
  induction addresses generalizing i with
  | nil => rfl
  | cons b rest ih =>
    have := ih (i + 1)
    simp only [tableVersions] at this
    simp [GetAddressFrom, tableVersions, List.range', this]

/-! ## Claims on the resolver -/

/-- C1. Table round trip: when the table has an entry for each supported version, resolving
it under an active supported version `v` succeeds with an address listed for `v`; with one
entry per version that address is the only one listed for `v`. For a positional
`GetAddress(...)` table, the result under version `k` is the address at position `k`. -/
theorem resolve_round_trip (supported : List HostVersionId) (table : VersionAddressTable)
    (hfull : ∀ v ∈ supported, v ∈ tableVersions table)
    (v : HostVersionId) (hv : v ∈ supported) :
    (∃ a, resolve v table = .ok a ∧ (v, a) ∈ table ∧
      ((tableVersions table).Nodup → ∀ b, (v, b) ∈ table → b = a)) ∧
    (∀ (addresses : List RawAddress) (k : HostVersionId) (a : RawAddress),
      addresses[k]? = some a → resolve k (GetAddress addresses) = .ok a) := by
  refine ⟨?_, resolve_GetAddress⟩
  obtain ⟨a, ha⟩ := resolve_of_listed v table (hfull v hv)
  have hmem := resolve_ok_mem v table a ha
  exact ⟨a, ha, hmem, fun hone b hb => entry_unique_of_nodup table hone v a b hmem hb⟩

/-- C1, witness: the table `[(V1,0x1000),(V2,0x2000)]` with active version V2. -/
theorem resolve_round_trip_witness :
    (∀ v ∈ [1, 2], v ∈ tableVersions [(1, 0x1000), (2, 0x2000)]) ∧ 2 ∈ [1, 2] ∧
    resolve 2 [(1, 0x1000), (2, 0x2000)] = .ok 0x2000 ∧
    (∃ a, resolve 2 [(1, 0x1000), (2, 0x2000)] = .ok a ∧
      (2, a) ∈ [(1, 0x1000), (2, 0x2000)] ∧
      ((tableVersions [(1, 0x1000), (2, 0x2000)]).Nodup →
        ∀ b, (2, b) ∈ [(1, 0x1000), (2, 0x2000)] → b = a)) :=
  ⟨by decide, by decide, rfl,
    (resolve_round_trip [1, 2] [(1, 0x1000), (2, 0x2000)] (by decide) 2 (by decide)).1⟩

/-- C2. A table with no entry for the active version: `resolve` fails with the configuration
error, so it yields no address at all, and a static call through that table fails with the
same error and leaves the host state and the call trace as they were. -/
theorem resolve_missing_entry_fails (table : VersionAddressTable) (active : HostVersionId)
    (habsent : active ∉ tableVersions table) :
    resolve active table = .error .configurationError ∧
    (∀ a, resolve active table ≠ .ok a) ∧
    (∀ (σ : Type) (H : Host σ) (signature : CallSignature) (args : List Arg) (w : World σ),
      STATIC_CALL H active table signature args w = (.error .configurationError, w)) := by
  have h := resolve_not_listed active table habsent
  refine ⟨h, ?_, ?_⟩
  · intro a ha
    rw [h] at ha
    cases ha
  · intro σ H signature args w
    simp [STATIC_CALL, h]

/-- C2, witness: the table `[(V1,0x1000),(V2,0x2000)]` with active version V3. -/
theorem resolve_missing_entry_fails_witness :
    3 ∉ tableVersions [(1, 0x1000), (2, 0x2000)] ∧
    resolve 3 [(1, 0x1000), (2, 0x2000)] = .error .configurationError ∧
    (STATIC_CALL bumpHost 3 [(1, 0x1000), (2, 0x2000)] UTFWinObject.deleteSignature
      [.ptr 0] ⟨0, []⟩).2.trace = [] :=
  ⟨by decide,
    (resolve_missing_entry_fails [(1, 0x1000), (2, 0x2000)] 3 (by decide)).1,
    by rw [(resolve_missing_entry_fails [(1, 0x1000), (2, 0x2000)] 3 (by decide)).2.2]⟩

/-- C8. The sources write twelve address tables for `DialogDrawable` and two for
`UTFWinObject`; each is a sequence of exactly three raw addresses, numbered in the fixed
order of the supported versions, and under every supported version `resolve` succeeds on it
with the address at that version's position, never with the configuration error. -/
theorem source_tables_fully_populated :
    DialogDrawable.InternalAddressList.length = 12 ∧
    sourceAddressLists.length = 14 ∧
    ∀ addresses ∈ sourceAddressLists,
      addresses.length = 3 ∧
      tableVersions (GetAddress addresses) = supportedVersions ∧
      ∀ v ∈ supportedVersions,
        (∃ a, addresses[v]? = some a ∧ resolve v (GetAddress addresses) = .ok a) ∧
        resolve v (GetAddress addresses) ≠ .error .configurationError := by
  refine ⟨by decide, by decide, ?_⟩
  intro addresses hmem
  have hlen : addresses.length = 3 := by
    revert addresses
    decide
  refine ⟨hlen, ?_, ?_⟩
  · rw [GetAddress, tableVersions_GetAddressFrom, hlen]
    rfl
  · intro v hv
    have hlt : v < addresses.length := by
      rw [hlen]
      simp only [supportedVersions, List.mem_cons, List.mem_singleton, List.not_mem_nil,
        or_false] at hv
      rcases hv with h | h | h <;> rw [h] <;> decide
    have hget : addresses[v]? = some addresses[v] := List.getElem?_eq_getElem hlt
    have hres := resolve_GetAddress addresses v addresses[v] hget
    refine ⟨⟨addresses[v], hget, hres⟩, ?_⟩
    rw [hres]
    intro hcontra
    cases hcontra

/-! ## Forwarder lemmas -/

theorem STATIC_CALL_resolved {σ : Type} (H : Host σ) (active : HostVersionId)
    (table : VersionAddressTable) (address : RawAddress)
    (h : resolve active table = .ok address)
    (signature : CallSignature) (args : List Arg) (w : World σ) :
    STATIC_CALL H active table signature args w =
      (.ok (H.code address args w.host).1,
        ⟨(H.code address args w.host).2,
          w.trace ++ [⟨address, signature, args, (H.code address args w.host).1⟩]⟩) := by
  simp [STATIC_CALL, invoke, h]

theorem supported_new_resolves (active : HostVersionId) (h : active ∈ supportedVersions) :
    ∃ a, resolve active (GetAddress UTFWinObject.newAddresses) = .ok a := by
  simp only [supportedVersions, List.mem_cons, List.mem_singleton, List.not_mem_nil,
    or_false] at h
  rcases h with h | h | h <;> subst h
  · exact ⟨0x951760, rfl⟩
  · exact ⟨0x951230, rfl⟩
  · exact ⟨0x951230, rfl⟩

theorem supported_delete_resolves (active : HostVersionId) (h : active ∈ supportedVersions) :
    ∃ a, resolve active (GetAddress UTFWinObject.deleteAddresses) = .ok a := by
  simp only [supportedVersions, List.mem_cons, List.mem_singleton, List.not_mem_nil,
    or_false] at h
  rcases h with h | h | h <;> subst h
  · exact ⟨0x9517C0, rfl⟩
  · exact ⟨0x951290, rfl⟩
  · exact ⟨0x951290, rfl⟩

/-- The results and the records of `count` direct calls, as the forwarder would log them. -/
theorem invokeTimes_forwarder {σ α : Type} (H : Host σ) (address : RawAddress)
    (signature : CallSignature) (args : List Arg) (g : Nat → α)
    (f : World σ → Except ResolveError α × World σ)
    (hf : ∀ w, f w = (.ok (g (H.code address args w.host).1),
      ⟨(H.code address args w.host).2,
        w.trace ++ [⟨address, signature, args, (H.code address args w.host).1⟩]⟩))
    (count : Nat) (w : World σ) :
    invokeTimes f count w =
      ((callHostDirectly H address args count w.host).1.map (fun r => .ok (g r)),
        ⟨(callHostDirectly H address args count w.host).2,
          w.trace ++ (callHostDirectly H address args count w.host).1.map
            (fun r => ⟨address, signature, args, r⟩)⟩) := by
  induction count generalizing w with
  | zero => simp [invokeTimes, callHostDirectly]
  | succ k ih =>
    simp only [invokeTimes, callHostDirectly, hf w, ih, List.map_cons, List.append_assoc,
      List.singleton_append]

theorem operator_new4_resolved {σ : Type} (H : Host σ) (active : HostVersionId)
    (newAddr : RawAddress)
    (hnew : resolve active (GetAddress UTFWinObject.newAddresses) = .ok newAddr)
    (n align : Nat) (pName : String) (pAllocator : Nat) (w : World σ) :
    UTFWinObject.operator_new4 H active n align pName pAllocator w =
      (.ok (H.code newAddr (UTFWinObject.newArgs n align pName pAllocator) w.host).1,
        ⟨(H.code newAddr (UTFWinObject.newArgs n align pName pAllocator) w.host).2,
          w.trace ++ [⟨newAddr, UTFWinObject.newSignature,
            UTFWinObject.newArgs n align pName pAllocator,
            (H.code newAddr (UTFWinObject.newArgs n align pName pAllocator) w.host).1⟩]⟩) := by
  rw [UTFWinObject.operator_new4, STATIC_CALL_resolved H active _ newAddr hnew]

theorem operator_delete_resolved {σ : Type} (H : Host σ) (active : HostVersionId)
    (deleteAddr : RawAddress)
    (hdel : resolve active (GetAddress UTFWinObject.deleteAddresses) = .ok deleteAddr)
    (p : Nat) (w : World σ) :
    UTFWinObject.operator_delete H active p w =
      (.ok (),
        ⟨(H.code deleteAddr (UTFWinObject.deleteArgs p) w.host).2,
          w.trace ++ [⟨deleteAddr, UTFWinObject.deleteSignature, UTFWinObject.deleteArgs p,
            (H.code deleteAddr (UTFWinObject.deleteArgs p) w.host).1⟩]⟩) := by
  rw [UTFWinObject.operator_delete, STATIC_CALL_resolved H active _ deleteAddr hdel]

theorem operator_new1_resolved {σ : Type} (H : Host σ) (active : HostVersionId)
    (getAllocatorTable : VersionAddressTable) (gaAddr : RawAddress)
    (hga : resolve active getAllocatorTable = .ok gaAddr)
    (n : Nat) (w : World σ) :
    UTFWinObject.operator_new1 H active getAllocatorTable n w =
      UTFWinObject.operator_new4 H active n 4 "" (H.code gaAddr [] w.host).1
        ⟨(H.code gaAddr [] w.host).2,
          w.trace ++ [⟨gaAddr, UTFWin.GetAllocatorSignature, [],
            (H.code gaAddr [] w.host).1⟩]⟩ := by
  rw [UTFWinObject.operator_new1, UTFWin.GetAllocator,
    STATIC_CALL_resolved H active _ gaAddr hga]

theorem producedCalls_append {σ : Type} (w : World σ) (s : σ) (calls : List CallRecord) :
    producedCalls w ⟨s, w.trace ++ calls⟩ = calls := by
  simp [producedCalls]

/-! ## Claims on the allocation forwarders -/

/-- C7. Pass-through forwarding is stateless. With the host function found at the resolved
address, the four-argument `operator new` performs exactly one call of it, with
`(n, align, pName, pAllocator)` in that order and unchanged, and returns its result;
`operator delete` performs exactly one call of its host function with `p`. Invoking either
forwarder `count` times yields the results, the final host state and the sequence of host
calls of `count` direct calls of the host function. -/
theorem forwarders_pass_through {σ : Type} (H : Host σ) (active : HostVersionId)
    (newAddr deleteAddr : RawAddress)
    (hnew : resolve active (GetAddress UTFWinObject.newAddresses) = .ok newAddr)
    (hdel : resolve active (GetAddress UTFWinObject.deleteAddresses) = .ok deleteAddr)
    (n align : Nat) (pName : String) (pAllocator p : Nat) (count : Nat) (w : World σ) :
    (UTFWinObject.operator_new4 H active n align pName pAllocator w).1 =
        .ok (H.code newAddr [.size n, .size align, .cstr pName, .ptr pAllocator] w.host).1 ∧
    (UTFWinObject.operator_new4 H active n align pName pAllocator w).2.host =
        (H.code newAddr [.size n, .size align, .cstr pName, .ptr pAllocator] w.host).2 ∧
    producedCalls w (UTFWinObject.operator_new4 H active n align pName pAllocator w).2 =
        [⟨newAddr, UTFWinObject.newSignature,
          [.size n, .size align, .cstr pName, .ptr pAllocator],
          (H.code newAddr [.size n, .size align, .cstr pName, .ptr pAllocator] w.host).1⟩] ∧
    (UTFWinObject.operator_delete H active p w).1 = .ok () ∧
    (UTFWinObject.operator_delete H active p w).2.host =
        (H.code deleteAddr [.ptr p] w.host).2 ∧
    producedCalls w (UTFWinObject.operator_delete H active p w).2 =
        [⟨deleteAddr, UTFWinObject.deleteSignature, [.ptr p],
          (H.code deleteAddr [.ptr p] w.host).1⟩] ∧
    (invokeTimes (UTFWinObject.operator_new4 H active n align pName pAllocator) count w).1 =
        (callHostDirectly H newAddr [.size n, .size align, .cstr pName, .ptr pAllocator]
          count w.host).1.map .ok ∧
    (invokeTimes (UTFWinObject.operator_new4 H active n align pName pAllocator) count w).2.host =
        (callHostDirectly H newAddr [.size n, .size align, .cstr pName, .ptr pAllocator]
          count w.host).2 ∧
    producedCalls w
        (invokeTimes (UTFWinObject.operator_new4 H active n align pName pAllocator) count w).2 =
        (callHostDirectly H newAddr [.size n, .size align, .cstr pName, .ptr pAllocator]
          count w.host).1.map
          (fun r => ⟨newAddr, UTFWinObject.newSignature,
            [.size n, .size align, .cstr pName, .ptr pAllocator], r⟩) ∧
    (invokeTimes (UTFWinObject.operator_delete H active p) count w).1 =
        List.replicate count (.ok ()) ∧
    (invokeTimes (UTFWinObject.operator_delete H active p) count w).2.host =
        (callHostDirectly H deleteAddr [.ptr p] count w.host).2 ∧
    producedCalls w (invokeTimes (UTFWinObject.operator_delete H active p) count w).2 =
        (callHostDirectly H deleteAddr [.ptr p] count w.host).1.map
          (fun r => ⟨deleteAddr, UTFWinObject.deleteSignature, [.ptr p], r⟩) := by
  have h4 := operator_new4_resolved H active newAddr hnew n align pName pAllocator
  have hd := operator_delete_resolved H active deleteAddr hdel p
  have hN := invokeTimes_forwarder H newAddr UTFWinObject.newSignature
    (UTFWinObject.newArgs n align pName pAllocator) id
    (UTFWinObject.operator_new4 H active n align pName pAllocator) h4 count w
  have hD := invokeTimes_forwarder H deleteAddr UTFWinObject.deleteSignature
    (UTFWinObject.deleteArgs p) (fun _ => ())
    (UTFWinObject.operator_delete H active p) hd count w
  have hlen : ∀ (l : List Nat),
      l.map (fun _ => (Except.ok () : Except ResolveError Unit)) =
        List.replicate l.length (.ok ()) := by
    intro l
    induction l with
    | nil => rfl
    | cons x rest ih => simp [List.replicate_succ, ih]
  have hcount : ∀ (address : RawAddress) (args : List Arg) (k : Nat) (s : σ),
      (callHostDirectly H address args k s).1.length = k := by
    intro address args k
    induction k with
    | zero => intro s; rfl
    | succ k ih => intro s; simp [callHostDirectly, ih]
  rw [h4 w, hd w, hN, hD]
  simp only [producedCalls_append, UTFWinObject.newArgs, UTFWinObject.deleteArgs, id,
    hlen, hcount]
  simp

/-- C7, witness: active version 0, where the tables resolve to 0x951760 and 0x9517C0, the
bump-allocator test double, three invocations. -/
theorem forwarders_pass_through_witness :
    resolve 0 (GetAddress UTFWinObject.newAddresses) = .ok 0x951760 ∧
    resolve 0 (GetAddress UTFWinObject.deleteAddresses) = .ok 0x9517C0 ∧
    (invokeTimes (UTFWinObject.operator_new4 bumpHost 0 16 4 "" 7) 3 ⟨0x1000, []⟩).1 =
      (callHostDirectly bumpHost 0x951760 [.size 16, .size 4, .cstr "", .ptr 7]
        3 0x1000).1.map .ok ∧
    (callHostDirectly bumpHost 0x951760 [.size 16, .size 4, .cstr "", .ptr 7] 3 0x1000).1 =
      [0x1000, 0x1040, 0x1080] :=
  ⟨rfl, rfl,
    (forwarders_pass_through bumpHost 0 0x951760 0x9517C0 rfl rfl 16 4 "" 7 0 3
      ⟨0x1000, []⟩).2.2.2.2.2.2.1,
    rfl⟩

/-- C5. Allocation protocol of `operator new(n)` under a supported active version. It first
calls the host accessor `GetAllocator` (no arguments), then equals the four-argument
`operator new(n, 4, "", a)` where `a` is the handle that call returned. The run performs
exactly these two host calls: the allocation call carries `n` unchanged, alignment 4 and the
allocator `a`, and the pointer returned is the host's return value. -/
theorem operator_new_protocol {σ : Type} (H : Host σ) (active : HostVersionId)
    (getAllocatorTable : VersionAddressTable) (gaAddr newAddr : RawAddress)
    (hga : resolve active getAllocatorTable = .ok gaAddr)
    (hnew : resolve active (GetAddress UTFWinObject.newAddresses) = .ok newAddr)
    (n : Nat) (w : World σ) :
    ∃ (a p : Nat) (w1 : World σ),
      UTFWin.GetAllocator H active getAllocatorTable w = (.ok a, w1) ∧
      producedCalls w w1 = [⟨gaAddr, UTFWin.GetAllocatorSignature, [], a⟩] ∧
      UTFWinObject.operator_new1 H active getAllocatorTable n w =
        UTFWinObject.operator_new4 H active n 4 "" a w1 ∧
      (UTFWinObject.operator_new1 H active getAllocatorTable n w).1 = .ok p ∧
      p = (H.code newAddr [.size n, .size 4, .cstr "", .ptr a] w1.host).1 ∧
      producedCalls w (UTFWinObject.operator_new1 H active getAllocatorTable n w).2 =
        [⟨gaAddr, UTFWin.GetAllocatorSignature, [], a⟩,
          ⟨newAddr, UTFWinObject.newSignature, [.size n, .size 4, .cstr "", .ptr a], p⟩] := by
  have h1 := operator_new1_resolved H active getAllocatorTable gaAddr hga n w
  refine ⟨(H.code gaAddr [] w.host).1, _, ⟨(H.code gaAddr [] w.host).2,
    w.trace ++ [⟨gaAddr, UTFWin.GetAllocatorSignature, [], (H.code gaAddr [] w.host).1⟩]⟩,
    ?_, ?_, h1, ?_, rfl, ?_⟩
  · rw [UTFWin.GetAllocator, STATIC_CALL_resolved H active _ gaAddr hga]
  · exact producedCalls_append w _ _
  · rw [h1, operator_new4_resolved H active newAddr hnew]
    rfl
  · rw [h1, operator_new4_resolved H active newAddr hnew]
    simp only [List.append_assoc, List.singleton_append, producedCalls_append]
    rfl

/-- C5, witness: active version 0, a `GetAllocator` table with the entry `(0, 0x951700)`, the
bump-allocator test double started at 0x1000, size 0x40. -/
theorem operator_new_protocol_witness :
    resolve 0 [(0, 0x951700)] = .ok 0x951700 ∧
    resolve 0 (GetAddress UTFWinObject.newAddresses) = .ok 0x951760 ∧
    (UTFWinObject.operator_new1 bumpHost 0 [(0, 0x951700)] 0x40 ⟨0x1000, []⟩).1 = .ok 0x1040 ∧
    ∃ (a p : Nat) (w1 : World Nat),
      UTFWin.GetAllocator bumpHost 0 [(0, 0x951700)] ⟨0x1000, []⟩ = (.ok a, w1) ∧
      producedCalls ⟨0x1000, []⟩ w1 = [⟨0x951700, UTFWin.GetAllocatorSignature, [], a⟩] ∧
      UTFWinObject.operator_new1 bumpHost 0 [(0, 0x951700)] 0x40 ⟨0x1000, []⟩ =
        UTFWinObject.operator_new4 bumpHost 0 0x40 4 "" a w1 ∧
      (UTFWinObject.operator_new1 bumpHost 0 [(0, 0x951700)] 0x40 ⟨0x1000, []⟩).1 = .ok p ∧
      p = (bumpHost.code 0x951760 [.size 0x40, .size 4, .cstr "", .ptr a] w1.host).1 ∧
      producedCalls ⟨0x1000, []⟩
          (UTFWinObject.operator_new1 bumpHost 0 [(0, 0x951700)] 0x40 ⟨0x1000, []⟩).2 =
        [⟨0x951700, UTFWin.GetAllocatorSignature, [], a⟩,
          ⟨0x951760, UTFWinObject.newSignature,
            [.size 0x40, .size 4, .cstr "", .ptr a], p⟩] :=
  ⟨rfl, rfl, rfl,
    operator_new_protocol bumpHost 0 [(0, 0x951700)] 0x951700 0x951760 rfl rfl 0x40
      ⟨0x1000, []⟩⟩

/-- C4. Construct then immediately release, under a supported active version: the run of
`operator new(n)` followed by `operator delete` on the returned pointer succeeds and
produces the calls `g, a, d` in this order, where `a` is the one call to the host allocation
entry point, `d` is the one call to the host deallocation entry point, and the pointer
passed in `d` is the value returned in `a` (`g` is the `GetAllocator` call). -/
theorem new_then_delete_trace {σ : Type} (H : Host σ) (active : HostVersionId)
    (getAllocatorTable : VersionAddressTable) (gaAddr : RawAddress)
    (hactive : active ∈ supportedVersions)
    (hga : resolve active getAllocatorTable = .ok gaAddr)
    (n : Nat) (w : World σ) :
    ∃ (p : Nat) (w1 : World σ) (g a d : CallRecord),
      UTFWinObject.operator_new1 H active getAllocatorTable n w = (.ok p, w1) ∧
      UTFWinObject.newThenDelete H active getAllocatorTable n w =
        UTFWinObject.operator_delete H active p w1 ∧
      (UTFWinObject.newThenDelete H active getAllocatorTable n w).1 = .ok () ∧
      producedCalls w (UTFWinObject.newThenDelete H active getAllocatorTable n w).2 =
        [g, a, d] ∧
      (producedCalls w (UTFWinObject.newThenDelete H active getAllocatorTable n w).2).filter
        (UTFWinObject.isAllocationCall active) = [a] ∧
      (producedCalls w (UTFWinObject.newThenDelete H active getAllocatorTable n w).2).filter
        (UTFWinObject.isDeallocationCall active) = [d] ∧
      a.args = [.size n, .size 4, .cstr "", .ptr g.result] ∧
      a.result = p ∧
      d.args = [.ptr p] := by
  obtain ⟨newAddr, hnew⟩ := supported_new_resolves active hactive
  obtain ⟨deleteAddr, hdel⟩ := supported_delete_resolves active hactive
  have h1 := operator_new1_resolved H active getAllocatorTable gaAddr hga n w
  rw [operator_new4_resolved H active newAddr hnew] at h1
  have hsig1 : ¬ UTFWin.GetAllocatorSignature = UTFWinObject.newSignature := by decide
  have hsig2 : ¬ UTFWin.GetAllocatorSignature = UTFWinObject.deleteSignature := by decide
  have hsig3 : ¬ UTFWinObject.newSignature = UTFWinObject.deleteSignature := by decide
  have hsig4 : ¬ UTFWinObject.deleteSignature = UTFWinObject.newSignature := by decide
  dsimp only at h1
  generalize H.code gaAddr [] w.host = r1 at h1
  generalize hr2 : H.code newAddr (UTFWinObject.newArgs n 4 "" r1.1) r1.2 = r2 at h1
  have hdw := operator_delete_resolved H active deleteAddr hdel r2.1
    ⟨r2.2, w.trace ++ [⟨gaAddr, UTFWin.GetAllocatorSignature, [], r1.1⟩] ++
      [⟨newAddr, UTFWinObject.newSignature, UTFWinObject.newArgs n 4 "" r1.1, r2.1⟩]⟩
  dsimp only at hdw
  generalize H.code deleteAddr (UTFWinObject.deleteArgs r2.1) r2.2 = r3 at hdw
  have htd : UTFWinObject.newThenDelete H active getAllocatorTable n w =
      (.ok (), ⟨r3.2, w.trace ++
        [⟨gaAddr, UTFWin.GetAllocatorSignature, [], r1.1⟩,
          ⟨newAddr, UTFWinObject.newSignature, UTFWinObject.newArgs n 4 "" r1.1, r2.1⟩,
          ⟨deleteAddr, UTFWinObject.deleteSignature, UTFWinObject.deleteArgs r2.1, r3.1⟩]⟩) := by
    rw [UTFWinObject.newThenDelete, h1]
    dsimp only
    rw [hdw]
    simp
  refine ⟨r2.1, _, ⟨gaAddr, UTFWin.GetAllocatorSignature, [], r1.1⟩,
    ⟨newAddr, UTFWinObject.newSignature, UTFWinObject.newArgs n 4 "" r1.1, r2.1⟩,
    ⟨deleteAddr, UTFWinObject.deleteSignature, UTFWinObject.deleteArgs r2.1, r3.1⟩,
    h1, ?_, ?_, ?_, ?_, ?_, rfl, rfl, rfl⟩
  · rw [UTFWinObject.newThenDelete, h1]
  · rw [htd]
  · rw [htd, producedCalls_append]
  · rw [htd, producedCalls_append]
    simp [List.filter, UTFWinObject.isAllocationCall, hnew, hsig1, hsig4]
  · rw [htd, producedCalls_append]
    simp [List.filter, UTFWinObject.isDeallocationCall, hdel, hsig2, hsig3]

/-- C4, witness: active version 0, a `GetAllocator` table with the entry `(0, 0x951700)`, the
bump-allocator test double started at 0x1000, size 0x40. -/
theorem new_then_delete_trace_witness :
    0 ∈ supportedVersions ∧ resolve 0 [(0, 0x951700)] = .ok 0x951700 ∧
    producedCalls ⟨0x1000, []⟩
        (UTFWinObject.newThenDelete bumpHost 0 [(0, 0x951700)] 0x40 ⟨0x1000, []⟩).2 =
      [⟨0x951700, UTFWin.GetAllocatorSignature, [], 0x1000⟩,
        ⟨0x951760, UTFWinObject.newSignature,
          [.size 0x40, .size 4, .cstr "", .ptr 0x1000], 0x1040⟩,
        ⟨0x9517C0, UTFWinObject.deleteSignature, [.ptr 0x1040], 0x1080⟩] ∧
    ∃ (p : Nat) (w1 : World Nat) (g a d : CallRecord),
      UTFWinObject.operator_new1 bumpHost 0 [(0, 0x951700)] 0x40 ⟨0x1000, []⟩ = (.ok p, w1) ∧
      UTFWinObject.newThenDelete bumpHost 0 [(0, 0x951700)] 0x40 ⟨0x1000, []⟩ =
        UTFWinObject.operator_delete bumpHost 0 p w1 ∧
      (UTFWinObject.newThenDelete bumpHost 0 [(0, 0x951700)] 0x40 ⟨0x1000, []⟩).1 = .ok () ∧
      producedCalls ⟨0x1000, []⟩
          (UTFWinObject.newThenDelete bumpHost 0 [(0, 0x951700)] 0x40 ⟨0x1000, []⟩).2 =
        [g, a, d] ∧
      (producedCalls ⟨0x1000, []⟩
          (UTFWinObject.newThenDelete bumpHost 0 [(0, 0x951700)] 0x40 ⟨0x1000, []⟩).2).filter
        (UTFWinObject.isAllocationCall 0) = [a] ∧
      (producedCalls ⟨0x1000, []⟩
          (UTFWinObject.newThenDelete bumpHost 0 [(0, 0x951700)] 0x40 ⟨0x1000, []⟩).2).filter
        (UTFWinObject.isDeallocationCall 0) = [d] ∧
      a.args = [.size 0x40, .size 4, .cstr "", .ptr g.result] ∧
      a.result = p ∧
      d.args = [.ptr p] :=
  ⟨by decide, rfl, rfl,
    new_then_delete_trace bumpHost 0 [(0, 0x951700)] 0x951700 (by decide) rfl 0x40
      ⟨0x1000, []⟩⟩

/-- C6, counterexample: with the bump-allocator test double, active version 0 and size
0x40, the allocation request forwarded by `operator new(n)` carries the empty string as its
debug name, so not every forwarded request has a non-empty name. -/
theorem debug_name_nonempty_counterexample :
    ¬ (∀ c ∈ producedCalls ⟨0x1000, []⟩
          (UTFWinObject.operator_new1 bumpHost 0 [(0, 0x951700)] 0x40 ⟨0x1000, []⟩).2,
        UTFWinObject.isAllocationCall 0 c = true →
          ∃ name, UTFWinObject.debugName c = some name ∧ name ≠ "") := by
  intro h
  have htrace : producedCalls ⟨0x1000, []⟩
      (UTFWinObject.operator_new1 bumpHost 0 [(0, 0x951700)] 0x40 ⟨0x1000, []⟩).2 =
      [⟨0x951700, UTFWin.GetAllocatorSignature, [], 0x1000⟩,
        ⟨0x951760, UTFWinObject.newSignature,
          [.size 0x40, .size 4, .cstr "", .ptr 0x1000], 0x1040⟩] := rfl
  rw [htrace] at h
  obtain ⟨name, hname, hne⟩ := h ⟨0x951760, UTFWinObject.newSignature,
    [.size 0x40, .size 4, .cstr "", .ptr 0x1000], 0x1040⟩ (by simp) rfl
  simp only [UTFWinObject.debugName, Option.some.injEq] at hname
  exact hne hname.symm

/-- C6, as the code has it: under a supported active version, `operator new(n)` forwards
exactly one allocation request to the host allocation entry point, for every size `n`, and
the debug name that request carries is the empty string. -/
theorem operator_new_debug_name_empty {σ : Type} (H : Host σ) (active : HostVersionId)
    (getAllocatorTable : VersionAddressTable) (gaAddr : RawAddress)
    (hactive : active ∈ supportedVersions)
    (hga : resolve active getAllocatorTable = .ok gaAddr)
    (n : Nat) (w : World σ) :
    ∃ c, (producedCalls w
          (UTFWinObject.operator_new1 H active getAllocatorTable n w).2).filter
        (UTFWinObject.isAllocationCall active) = [c] ∧
      UTFWinObject.debugName c = some "" := by
  obtain ⟨newAddr, hnew⟩ := supported_new_resolves active hactive
  have h1 := operator_new1_resolved H active getAllocatorTable gaAddr hga n w
  rw [operator_new4_resolved H active newAddr hnew] at h1
  dsimp only at h1
  generalize H.code gaAddr [] w.host = r1 at h1
  generalize H.code newAddr (UTFWinObject.newArgs n 4 "" r1.1) r1.2 = r2 at h1
  have hsig1 : ¬ UTFWin.GetAllocatorSignature = UTFWinObject.newSignature := by decide
  refine ⟨⟨newAddr, UTFWinObject.newSignature, UTFWinObject.newArgs n 4 "" r1.1, r2.1⟩,
    ?_, rfl⟩
  rw [h1]
  simp only [List.append_assoc, List.singleton_append, producedCalls_append]
  simp [List.filter, UTFWinObject.isAllocationCall, hnew, hsig1]

/-- C6, witness of the amended statement: active version 0, a `GetAllocator` table with the
entry `(0, 0x951700)`, the bump-allocator test double started at 0x1000, size 0x40. -/
theorem operator_new_debug_name_empty_witness :
    0 ∈ supportedVersions ∧ resolve 0 [(0, 0x951700)] = .ok 0x951700 ∧
    ∃ c, (producedCalls ⟨0x1000, []⟩
          (UTFWinObject.operator_new1 bumpHost 0 [(0, 0x951700)] 0x40 ⟨0x1000, []⟩).2).filter
        (UTFWinObject.isAllocationCall 0) = [c] ∧
      UTFWinObject.debugName c = some "" :=
  ⟨by decide, rfl,
    operator_new_debug_name_empty bumpHost 0 [(0, 0x951700)] 0x951700 (by decide) rfl 0x40
      ⟨0x1000, []⟩⟩

/-! ## Claims on DialogDrawable.h -/

/-- C3. Layout pinning of `DialogDrawable` on a target with 4-byte pointers, 4-byte `Color`
and a base-class part of 0x10 bytes: the compiler places the members at their annotated
offsets 0x10, 0x14, 0x18; each member starts where the previous one (or the base-class
part) ends, so there is no gap and no overlap; the last member ends at 0x40, and
`sizeof(DialogDrawable)` equals the asserted 0x40. -/
theorem DialogDrawable_layout_pinned (t : Target)
    (hptr : t.pointerSize = 4) (hcolor : t.colorSize = 4) (hbase : t.baseSize = 0x10) :
    (DialogDrawable.layout t).1 = DialogDrawable.fields.map FieldDecl.annotatedOffset ∧
    DialogDrawable.fields.map (fun f => (f.name, f.annotatedOffset)) =
      [(.mBackgroundFillColor, 0x10), (.mBackgroundTiling, 0x14), (.mpImages, 0x18)] ∧
    DialogDrawable.fields.map (fun f => f.annotatedOffset + f.type.size t) =
      (DialogDrawable.fields.map FieldDecl.annotatedOffset).drop 1 ++
        [DialogDrawable.assertedSize] ∧
    (DialogDrawable.fields.map FieldDecl.annotatedOffset).head? = some t.baseSize ∧
    (DialogDrawable.layout t).2 = 0x40 ∧
    DialogDrawable.sizeof t = DialogDrawable.assertedSize := by
  obtain ⟨pointerSize, colorSize, baseSize⟩ := t
  simp only at hptr hcolor hbase
  subst hptr hcolor hbase
  decide

/-- C3, witness: the 32-bit host. -/
theorem DialogDrawable_layout_pinned_witness :
    host32.pointerSize = 4 ∧ host32.colorSize = 4 ∧ host32.baseSize = 0x10 ∧
    DialogDrawable.sizeof host32 = 0x40 ∧ (DialogDrawable.layout host32).1 = [0x10, 0x14, 0x18] :=
  ⟨rfl, rfl, rfl,
    (DialogDrawable_layout_pinned host32 rfl rfl rfl).2.2.2.2.2,
    (DialogDrawable_layout_pinned host32 rfl rfl rfl).1⟩

/-- C9. Dispatch-slot order of `IDialogDrawable` with 4-byte slots and `ToDrawable` at
0x10: the six virtual methods in declaration order occupy consecutive slots, the offsets
annotated on the last five (0x14, 0x18, 0x1C, 0x20, 0x24) are the slot offsets
`ToDrawable + 4 * k` for `k = 1..5`, and `DialogDrawable` overrides each of the six and has
an address table entry for each. -/
theorem IDialogDrawable_slot_order (toDrawableOffset : Nat) (h : toDrawableOffset = 0x10) :
    IDialogDrawable.virtualMethods.map Prod.fst =
      [.ToDrawable, .SetImage, .GetBackgroundColor, .SetBackgroundColor,
        .GetBackgroundTiling, .SetBackgroundTiling] ∧
    (IDialogDrawable.virtualMethods.drop 1).map Prod.snd =
      [some 0x14, some 0x18, some 0x1C, some 0x20, some 0x24] ∧
    (IDialogDrawable.virtualMethods.drop 1).map Prod.snd =
      (List.range' 1 5).map (fun k => some (toDrawableOffset + 4 * k)) ∧
    IDialogDrawable.virtualMethods.drop 1 =
      ((slotOffsets 4 toDrawableOffset
        (IDialogDrawable.virtualMethods.map Prod.fst)).drop 1).map
        (fun e => (e.1, some e.2)) ∧
    (slotOffsets 4 toDrawableOffset
        (IDialogDrawable.virtualMethods.map Prod.fst)).head? = some (.ToDrawable, 0x10) ∧
    (∀ m ∈ IDialogDrawable.virtualMethods.map Prod.fst,
      m ∈ DialogDrawable.overrides ∧
      m ∈ DialogDrawable.InternalAddressList.map Prod.fst) := by
  subst h
  decide

/-- C9, witness: `ToDrawable` in the slot at 0x10. -/
theorem IDialogDrawable_slot_order_witness :
    (0x10 : Nat) = 0x10 ∧
    slotOffsets 4 0x10 (IDialogDrawable.virtualMethods.map Prod.fst) =
      [(.ToDrawable, 0x10), (.SetImage, 0x14), (.GetBackgroundColor, 0x18),
        (.SetBackgroundColor, 0x1C), (.GetBackgroundTiling, 0x20),
        (.SetBackgroundTiling, 0x24)] ∧
    (IDialogDrawable.virtualMethods.drop 1).map Prod.snd =
      (List.range' 1 5).map (fun k => some (0x10 + 4 * k)) :=
  ⟨rfl, rfl, (IDialogDrawable_slot_order 0x10 rfl).2.2.1⟩

/-- C10. The ten `kImage...` constants are pairwise distinct and are exactly the integers
0..9, the index range of the 10-element `mpImages` array, so every one of them is in bounds;
a default-constructed `DialogDrawable` holds a null image at each of these indices, the
background fill colour 0xFF7F7F7F and the background tiling `Stretch`, whose value is 0. -/
theorem image_indices_in_bounds_and_default_state :
    IDialogDrawable.kImage.map IDialogDrawable.ImageIndex.value = List.range 10 ∧
    (IDialogDrawable.kImage.map IDialogDrawable.ImageIndex.value).Nodup ∧
    (∀ i : IDialogDrawable.ImageIndex, i ∈ IDialogDrawable.kImage) ∧
    (∀ i j : IDialogDrawable.ImageIndex, i.value = j.value → i = j) ∧
    DialogDrawable.mpImagesExtent = 10 ∧
    DialogDrawable.construct.mpImages.length = DialogDrawable.mpImagesExtent ∧
    (∀ i : IDialogDrawable.ImageIndex,
      i.value < DialogDrawable.mpImagesExtent ∧
      DialogDrawable.construct.mpImages[i.value]? = some 0) ∧
    DialogDrawable.construct.mBackgroundFillColor = 0xFF7F7F7F ∧
    DialogDrawable.construct.mBackgroundTiling = BackgroundTiling.Stretch.value ∧
    BackgroundTiling.Stretch.value = 0 := by
  refine ⟨by decide, by decide, ?_, ?_, rfl, by decide, ?_, rfl, rfl, rfl⟩
  · intro i
    cases i <;> decide
  · intro i j
    cases i <;> cases j <;> decide
  · intro i
    cases i <;> decide

end SporeModAPI
